import Mathlib

set_option maxRecDepth 8000

/-! Verification of the integreat redis transporter.  The Disconnector is
embedded from `src/disconnect.ts`.  The record codec, key resolver, command
dispatcher and connection manager live in source files that are not part of
the staged repository (only their integration test is), so those parts are
modelled from the specification, as marked on each definition. -/

/-- A Redis client handle as `disconnect.ts` sees it: the `isOpen` flag it
queries, plus the behaviour of the client's `quit()` call —
`quitFails = true` means `quit()` raises. -/
structure RedisClient where
  isOpen : Bool
  quitFails : Bool
  deriving DecidableEq

/-- Connection status from the data model: `ok`, or `error` carrying a
human-readable reason. -/
inductive ConnStatus where
  | ok : ConnStatus
  | error : String → ConnStatus
  deriving DecidableEq

/-- The `Connection` object as `disconnect.ts` uses it: a `status` field and
a nullable `redisClient` reference. -/
structure Connection where
  status : ConnStatus
  redisClient : Option RedisClient
  deriving DecidableEq

/-- `redisClient.quit()`: raises exactly when the client is set to fail. -/
def clientQuit (c : RedisClient) : Except String Unit :=
  if c.quitFails then Except.error "quit failed" else Except.ok ()

/-- What a `disconnect` call produced: the connection afterwards and how many
times `quit()` was attempted. -/
structure DisconnectResult where
  conn : Option Connection
  quitCalls : Nat
  deriving DecidableEq

/-- Embedding of `disconnect` (src/disconnect.ts).  When the connection
exists, has status ok and a client, it quits the client if the client is
open — the `try`/`catch` around `quit()` is the match on `clientQuit`, both
arms falling through to the same result — and then nulls the client
reference.  An `Except.error` result would be an exception escaping to the
caller; no branch produces one. -/
def disconnect (connection : Option Connection) : Except String DisconnectResult :=
  match connection with
  | none => Except.ok ⟨none, 0⟩
  | some conn =>
    if conn.status = ConnStatus.ok then
      match conn.redisClient with
      | some client =>
        if client.isOpen then
          match clientQuit client with
          | Except.ok _ => Except.ok ⟨some { conn with redisClient := none }, 1⟩
          | Except.error _ => Except.ok ⟨some { conn with redisClient := none }, 1⟩
        else Except.ok ⟨some { conn with redisClient := none }, 0⟩
      | none => Except.ok ⟨some conn, 0⟩
    else Except.ok ⟨some conn, 0⟩

/-- The quit-attempt count of a `disconnect` call. -/
def disconnectQuitCalls (c : Option Connection) : Nat :=
  match disconnect c with
  | Except.ok r => r.quitCalls
  | Except.error _ => 0

/-! ## Record codec (modelled from the spec)
The codec source is not among the staged files; the definitions below are
modelled from the specification's Record Codec section: a stored field value
equal to the null sentinel decodes to null, a value that parses as JSON
object syntax is parsed into a nested structure, everything else stays a
plain string; encoding is the inverse mapping. -/

/-- The JSON double-quote character. -/
def qmark : Char := Char.ofNat 34

/-- The JSON escape character (backslash). -/
def bslash : Char := Char.ofNat 92

/-- Opening brace of a JSON object. -/
def lbrace : Char := Char.ofNat 123

/-- Closing brace of a JSON object. -/
def rbrace : Char := Char.ofNat 125

/-- Modelled from the spec: a structured record value — a plain string, a
null, or a nested object of named values (the shapes the Record Codec
produces). -/
inductive JSValue where
  | str : String → JSValue
  | null : JSValue
  | obj : List (String × JSValue) → JSValue

/-- JSON escaping of one character: quotes and backslashes get a backslash,
everything else is passed through. -/
def escChar (c : Char) : List Char :=
  if c = qmark ∨ c = bslash then [bslash, c] else [c]

/-- JSON escaping of a character sequence. -/
def escChars : List Char → List Char
  | [] => []
  | c :: cs => escChar c ++ escChars cs

/-- A JSON string literal: the escaped body between double quotes. -/
def quoteChars (s : String) : List Char :=
  qmark :: (escChars s.data ++ [qmark])

mutual

/-- Modelled from the spec: JSON serialization of a record value (the
`JSON.stringify` the missing codec source applies to nested objects). -/
def serializeValue : JSValue → List Char
  | JSValue.str s => quoteChars s
  | JSValue.null => ['n', 'u', 'l', 'l']
  | JSValue.obj fs => (lbrace :: serializeFields fs) ++ [rbrace]

/-- JSON serialization of an object body: comma-separated `"key":value`
pairs. -/
def serializeFields : List (String × JSValue) → List Char
  | [] => []
  | (k, v) :: rest =>
    match rest with
    | [] => quoteChars k ++ (':' :: serializeValue v)
    | _ :: _ =>
      (quoteChars k ++ (':' :: serializeValue v)) ++ (',' :: serializeFields rest)

end

/-- Scanner for the body of a JSON string literal: consumes characters up to
the closing quote, unescaping backslash pairs.  Fuelled so that it is
structurally recursive. -/
def parseStrCh : Nat → List Char → Option (List Char × List Char)
  | 0, _ => none
  | _ + 1, [] => none
  | f + 1, c :: cs =>
    if c = qmark then some ([], cs)
    else if c = bslash then
      match cs with
      | [] => none
      | d :: ds =>
        match parseStrCh f ds with
        | some (s, r) => some (d :: s, r)
        | none => none
    else
      match parseStrCh f cs with
      | some (s, r) => some (c :: s, r)
      | none => none

/-- Modelled from the spec: the JSON parser the codec applies to stored
values, over the grammar the serializer emits (strings, null, objects).
`false` parses one value, `true` parses a non-empty object body up to and
including its closing brace; each call returns the unconsumed rest. -/
def parseJ : Nat → Bool → List Char →
    Option (Sum (JSValue × List Char) (List (String × JSValue) × List Char))
  | 0, _, _ => none
  | _ + 1, _, [] => none
  | f + 1, false, c :: cs =>
    if c = qmark then
      match parseStrCh f cs with
      | some (s, r) => some (Sum.inl (JSValue.str (String.mk s), r))
      | none => none
    else if c = lbrace then
      match cs with
      | [] => none
      | d :: ds =>
        if d = rbrace then some (Sum.inl (JSValue.obj [], ds))
        else
          match parseJ f true (d :: ds) with
          | some (Sum.inr (fs, r)) => some (Sum.inl (JSValue.obj fs, r))
          | _ => none
    else if c = 'n' then
      match cs with
      | 'u' :: 'l' :: 'l' :: rest => some (Sum.inl (JSValue.null, rest))
      | _ => none
    else none
  | f + 1, true, c :: cs =>
    if c = qmark then
      match parseStrCh f cs with
      | some (k, r) =>
        match r with
        | c2 :: r2 =>
          if c2 = ':' then
            match parseJ f false r2 with
            | some (Sum.inl (v, r3)) =>
              match r3 with
              | c3 :: r4 =>
                if c3 = ',' then
                  match parseJ f true r4 with
                  | some (Sum.inr (fs, r5)) =>
                    some (Sum.inr ((String.mk k, v) :: fs, r5))
                  | _ => none
                else if c3 = rbrace then some (Sum.inr ([(String.mk k, v)], r4))
                else none
              | [] => none
            | _ => none
          else none
        | [] => none
      | none => none
    else none

/-- Modelled from the spec: "any value that parses as JSON object syntax is
parsed into a nested structure" — succeeds exactly when the whole string is
one JSON object. -/
def parseJsonObj (s : String) : Option JSValue :=
  match s.data with
  | [] => none
  | c :: _ =>
    if c = lbrace then
      match parseJ (s.data.length + 1) false s.data with
      | some (Sum.inl (v, [])) => some v
      | _ => none
    else none

/-- Modelled from the spec: the null sentinel, the fixed string stored in
place of a native null. -/
def nullSentinel : String := "##null##"

/-- Modelled from the spec: decoding of one stored field value — the
sentinel becomes null, a JSON object string is parsed, anything else stays a
plain string. -/
def decodeValue (s : String) : JSValue :=
  if s = nullSentinel then JSValue.null
  else
    match parseJsonObj s with
    | some v => v
    | none => JSValue.str s

/-- Modelled from the spec: encoding of one record value — null becomes the
sentinel, nested objects are JSON-serialized, strings stay themselves. -/
def encodeValue : JSValue → String
  | JSValue.null => nullSentinel
  | JSValue.str s => s
  | JSValue.obj fs => String.mk (serializeValue (JSValue.obj fs))

/-- The field/value pairs of one stored hash map. -/
abbrev RedisHash := List (String × String)

/-- The store: keys with their hash maps, in the store's enumeration
order. -/
abbrev RedisStore := List (String × RedisHash)

/-- Modelled from the spec: decode a read hash map field by field. -/
def decodeRecord (h : RedisHash) : List (String × JSValue) :=
  h.map fun kv => (kv.1, decodeValue kv.2)

/-- Modelled from the spec: encode a record for storage field by field. -/
def encodeRecord (r : List (String × JSValue)) : RedisHash :=
  r.map fun kv => (kv.1, encodeValue kv.2)

/-- A value whose encoding decodes unambiguously: a string field must not
spell the null sentinel and must not itself parse as a JSON object. -/
def goodValue : JSValue → Bool
  | JSValue.str s => !(s == nullSentinel) && (parseJsonObj s).isNone
  | JSValue.null => true
  | JSValue.obj _ => true

/-- A record all of whose field values are unambiguous. -/
def goodRecord (r : List (String × JSValue)) : Bool :=
  r.all fun kv => goodValue kv.2

/-! ## Key resolver (modelled from the spec) -/

/-- Modelled from the spec: `buildKey(prefix, type?, id)`. -/
def buildKey (pfx : String) (typ : Option String) (i : String) : String :=
  match typ with
  | some t => pfx ++ ":" ++ t ++ ":" ++ i
  | none => pfx ++ ":" ++ i

/-- The part `extractIdFromKey` strips: `"{prefix}:{type}:"` with a type,
`"{prefix}:"` without. -/
def keyPre (pfx : String) (typ : Option String) : String :=
  match typ with
  | some t => pfx ++ ":" ++ t ++ ":"
  | none => pfx ++ ":"

/-- Modelled from the spec: `extractIdFromKey(prefix, type?, key)` strips
`keyPre` off the key to recover the id portion. -/
def extractIdFromKey (pfx : String) (typ : Option String) (key : String) : String :=
  String.mk (key.data.drop (keyPre pfx typ).data.length)

/-- Modelled from the spec: `buildPattern(prefix, pattern)` is
`"{prefix}:{pattern}*"`. -/
def buildPattern (pfx pat : String) : String := pfx ++ ":" ++ pat ++ "*"

/-- Trailing-star glob match, the only shape `buildPattern` produces: the
key must start with the glob minus its final star. -/
def globMatch (glob key : String) : Bool :=
  List.isPrefixOf glob.data.dropLast key.data

/-- The store's `hGetAll`: the hash map at a key, if the key exists. -/
def lookupHash (store : RedisStore) (key : String) : Option RedisHash :=
  match store with
  | [] => none
  | (k, h) :: rest => if k = key then some h else lookupHash rest key

/-- The store's `keys(glob)` enumeration: the keys matching the pattern, in
the store's order. -/
def patternKeys (store : RedisStore) (pfx pat : String) : List String :=
  (store.map Prod.fst).filter fun k => globMatch (buildPattern pfx pat) k

/-! ## Command dispatcher (modelled from the spec) -/

/-- Modelled from the spec: the payload's id — a single string or an ordered
sequence of strings. -/
inductive ActionId where
  | one : String → ActionId
  | many : List String → ActionId
  deriving DecidableEq

/-- Modelled from the spec: the action payload, a discriminated shape —
either `(type, id)` or `(pattern, onlyIds?)`. -/
structure ActionPayload where
  ptype : Option String
  id : Option ActionId
  pat : Option String
  onlyIds : Bool
  deriving DecidableEq

/-- Modelled from the spec: an action — command name, payload, and the
configuration's key prefix carried in `meta.options`. -/
structure RAction where
  atype : String
  payload : ActionPayload
  pfx : String
  deriving DecidableEq

/-- Response data: a single record for a single requested id, an ordered
sequence of records otherwise. -/
inductive RespData where
  | one : List (String × JSValue) → RespData
  | many : List (List (String × JSValue)) → RespData

/-- Modelled from the spec: the response shape `(status, data?, error?)`. -/
structure Response where
  status : String
  data : Option RespData
  error : Option String

/-- The no-connection failure response. -/
def noConnectionResp : Response := ⟨"error", none, some "No connection"⟩

/-- Read one id: build the key, read the full hash map, decode it, and
attach the requested id as the record's `id` field.  A missing key yields
none. -/
def getRecord (store : RedisStore) (pfx : String) (typ : Option String)
    (i : String) : Option (List (String × JSValue)) :=
  match lookupHash store (buildKey pfx typ i) with
  | some h => some ((("id" : String), JSValue.str i) :: decodeRecord h)
  | none => none

/-- The GET branch for a single `payload.id`: the decoded record on success,
an error response when the key is missing (the spec's blanket failure
contract: all failure paths resolve to a status-error response). -/
def sendOne (store : RedisStore) (pfx : String) (typ : Option String)
    (i : String) : Response :=
  match getRecord store pfx typ i with
  | some r => ⟨"ok", some (RespData.one r), none⟩
  | none => ⟨"error", none, some ("Could not find " ++ i)⟩

/-- The GET branch for a list of ids: one read per id in request order,
non-existent keys omitted. -/
def sendMany (store : RedisStore) (pfx : String) (typ : Option String)
    (is : List String) : Response :=
  ⟨"ok", some (RespData.many (is.filterMap (getRecord store pfx typ))), none⟩

/-- The GET branch for a pattern: enumerate matching keys, extract each id,
and either return id-only records or read and decode the full records. -/
def sendPattern (store : RedisStore) (pfx : String) (typ : Option String)
    (p : String) (onlyIds : Bool) : Response :=
  let ks := patternKeys store pfx p
  if onlyIds then
    ⟨"ok", some (RespData.many (ks.map fun k =>
      [(("id" : String), JSValue.str (extractIdFromKey pfx typ k))])), none⟩
  else
    ⟨"ok", some (RespData.many (ks.filterMap fun k =>
      match lookupHash store k with
      | some h => some
          ((("id" : String), JSValue.str (extractIdFromKey pfx typ k))
            :: decodeRecord h)
      | none => none)), none⟩

/-- Modelled from the spec: the command dispatcher.  Requires a live
connection, only handles GET, branches on the payload shape, and converts
every failure into a `status = "error"` response with a message — it never
raises (the function is total by construction). -/
def send (store : RedisStore) (action : RAction) (conn : Option Connection) :
    Response :=
  match conn with
  | none => noConnectionResp
  | some c =>
    match c.redisClient with
    | none => noConnectionResp
    | some _ =>
      if action.atype = "GET" then
        match action.payload.id with
        | some (ActionId.one i) => sendOne store action.pfx action.payload.ptype i
        | some (ActionId.many is) => sendMany store action.pfx action.payload.ptype is
        | none =>
          match action.payload.pat with
          | some p =>
            sendPattern store action.pfx action.payload.ptype p action.payload.onlyIds
          | none => ⟨"error", none, some "No id or pattern"⟩
      else ⟨"error", none, some "Unsupported action type"⟩

/-! ## Connection manager (modelled from the spec) -/

/-- A freshly established, open client session. -/
def freshClient : RedisClient := ⟨true, false⟩

/-- Connection-manager state: the connection, the number of client sessions
established so far (the connect call count), the clock, and the armed
idle-expiry deadline, if any. -/
structure MState where
  conn : Connection
  sessions : Nat
  now : Nat
  deadline : Option Nat
  deriving DecidableEq

/-- Modelled from the spec: the idle-expiry task — when the timer fires it
invokes the Disconnector on the connection, which clears the client
reference and leaves the status untouched. -/
def expireNow (conn : Connection) : Connection :=
  match disconnect (some conn) with
  | Except.ok r =>
    match r.conn with
    | some c => c
    | none => conn
  | Except.error _ => conn

/-- Modelled from the spec: time passing with no intervening activity; when
the armed deadline is reached the idle-expiry task fires. -/
def advanceClock (dt : Nat) (s : MState) : MState :=
  let now2 := s.now + dt
  match s.deadline with
  | some d =>
    if d ≤ now2 then ⟨expireNow s.conn, s.sessions, now2, none⟩
    else ⟨s.conn, s.sessions, now2, some d⟩
  | none => ⟨s.conn, s.sessions, now2, none⟩

/-- Modelled from the spec: `connect(config, existingConnection)` — reuse
the connection unchanged when its client is present; otherwise establish a
fresh client session (counted in `sessions`), set status ok and arm the
idle-expiry schedule, or record an error status when the endpoint is
unreachable. -/
def connect (reachable : Bool) (timeout : Nat) (s : MState) : MState :=
  if s.conn.redisClient.isSome then s
  else if reachable then
    ⟨⟨ConnStatus.ok, some freshClient⟩, s.sessions + 1, s.now,
      some (s.now + timeout)⟩
  else ⟨⟨ConnStatus.error "Connection failed", none⟩, s.sessions, s.now, none⟩

/-! ## Test fixtures (the data of the staged integration test) -/

/-- The stored `author` value of articles 1 and 3 (a JSON object string). -/
def authorJohnf : String := "\x7b\x22id\x22:\x22johnf\x22,\x22name\x22:\x22John F.\x22\x7d"

/-- The stored `author` value of article 2 (a JSON object string). -/
def authorLucyk : String := "\x7b\x22id\x22:\x22lucyk\x22,\x22name\x22:\x22Lucy K.\x22\x7d"

/-- The hash map stored at `store:article:art1`. -/
def hash1 : RedisHash :=
  [("title", "Article 1"), ("description", "The first article"),
   ("publishedAt", "##null##"), ("author", authorJohnf)]

/-- The hash map stored at `store:article:art2`. -/
def hash2 : RedisHash :=
  [("title", "Article 2"), ("description", "The second article"),
   ("publishedAt", "2023-11-18T09:14:44Z"), ("author", authorLucyk)]

/-- The hash map stored at `store:article:art3`. -/
def hash3 : RedisHash :=
  [("title", "Article 3"), ("description", "The third article"),
   ("publishedAt", "##null##"), ("author", authorJohnf)]

/-- The store as the integration test seeds it. -/
def fixtureStore : RedisStore :=
  [("store:article:art1", hash1), ("store:article:art2", hash2),
   ("store:article:art3", hash3)]

/-- A live connection with status ok and an open client. -/
def connOk : Connection := ⟨ConnStatus.ok, some freshClient⟩

/-- A GET action by id(s) against prefix `store`. -/
def getAction (typ : Option String) (aid : ActionId) : RAction :=
  ⟨"GET", ⟨typ, some aid, none, false⟩, "store"⟩

/-- A GET action by pattern against prefix `store`. -/
def patAction (p : String) (onlyIdsFlag : Bool) : RAction :=
  ⟨"GET", ⟨none, none, some p, onlyIdsFlag⟩, "store"⟩

/-- The decoded record the test expects for `art1`. -/
def record1 : List (String × JSValue) :=
  [("id", JSValue.str "art1"), ("title", JSValue.str "Article 1"),
   ("description", JSValue.str "The first article"),
   ("publishedAt", JSValue.null),
   ("author", JSValue.obj
     [("id", JSValue.str "johnf"), ("name", JSValue.str "John F.")])]

/-- Helper: how `disconnect` acts on a status-ok connection holding a
client. -/
theorem disconnect_ok_some (conn : Connection) (client : RedisClient)
    (h1 : conn.status = ConnStatus.ok) (h2 : conn.redisClient = some client) :
    disconnect (some conn) =
      Except.ok ⟨some { conn with redisClient := none },
        if client.isOpen then 1 else 0⟩ := by
  obtain ⟨st, rc⟩ := conn
  dsimp only at h1 h2
  subst h1
  subst h2
  unfold disconnect clientQuit
  by_cases hio : client.isOpen <;> by_cases hq : client.quitFails <;>
    simp [hio, hq]

theorem bslash_ne_qmark : bslash ≠ qmark := by decide

theorem parseStrCh_cons (f : Nat) (c : Char) (cs : List Char) :
    parseStrCh (f + 1) (c :: cs) =
      if c = qmark then some ([], cs)
      else if c = bslash then
        match cs with
        | [] => none
        | d :: ds =>
          match parseStrCh f ds with
          | some (s, r) => some (d :: s, r)
          | none => none
      else
        match parseStrCh f cs with
        | some (s, r) => some (c :: s, r)
        | none => none := rfl

theorem parseStrCh_esc (s : List Char) : ∀ (fuel : Nat) (rest : List Char),
    (escChars s ++ (qmark :: rest)).length ≤ fuel →
    parseStrCh fuel (escChars s ++ (qmark :: rest)) = some (s, rest) := by
  induction s with
  | nil =>
    intro fuel rest hlen
    simp only [escChars, List.nil_append, List.length_cons] at hlen ⊢
    match fuel, hlen with
    | f + 1, _ =>
      rw [parseStrCh_cons, if_pos rfl]
  | cons c cs ih =>
    intro fuel rest hlen
    by_cases hc : c = qmark ∨ c = bslash
    · have he : escChars (c :: cs) = bslash :: (c :: escChars cs) := by
        simp [escChars, escChar, hc]
      rw [he] at hlen ⊢
      simp only [List.cons_append, List.length_cons, List.length_append] at hlen ⊢
      match fuel, hlen with
      | f + 1, hlen =>
        rw [parseStrCh_cons, if_neg bslash_ne_qmark, if_pos rfl]
        dsimp only
        rw [ih f rest (by simp only [List.length_append, List.length_cons]; omega)]
    · have he : escChars (c :: cs) = c :: escChars cs := by
        simp [escChars, escChar, hc]
      rw [he] at hlen ⊢
      simp only [List.cons_append, List.length_cons, List.length_append] at hlen ⊢
      push_neg at hc
      match fuel, hlen with
      | f + 1, hlen =>
        rw [parseStrCh_cons, if_neg hc.1, if_neg hc.2]
        rw [ih f rest (by simp only [List.length_append, List.length_cons]; omega)]

theorem parseJ_val_cons (f : Nat) (c : Char) (cs : List Char) :
    parseJ (f + 1) false (c :: cs) =
      (if c = qmark then
        match parseStrCh f cs with
        | some (s, r) => some (Sum.inl (JSValue.str (String.mk s), r))
        | none => none
      else if c = lbrace then
        match cs with
        | [] => none
        | d :: ds =>
          if d = rbrace then some (Sum.inl (JSValue.obj [], ds))
          else
            match parseJ f true (d :: ds) with
            | some (Sum.inr (fs, r)) => some (Sum.inl (JSValue.obj fs, r))
            | _ => none
      else if c = 'n' then
        match cs with
        | 'u' :: 'l' :: 'l' :: rest => some (Sum.inl (JSValue.null, rest))
        | _ => none
      else none) := rfl

theorem parseJ_flds_cons (f : Nat) (c : Char) (cs : List Char) :
    parseJ (f + 1) true (c :: cs) =
      (if c = qmark then
        match parseStrCh f cs with
        | some (k, r) =>
          match r with
          | c2 :: r2 =>
            if c2 = ':' then
              match parseJ f false r2 with
              | some (Sum.inl (v, r3)) =>
                match r3 with
                | c3 :: r4 =>
                  if c3 = ',' then
                    match parseJ f true r4 with
                    | some (Sum.inr (fs, r5)) =>
                      some (Sum.inr ((String.mk k, v) :: fs, r5))
                    | _ => none
                  else if c3 = rbrace then some (Sum.inr ([(String.mk k, v)], r4))
                  else none
                | [] => none
              | _ => none
            else none
          | [] => none
        | none => none
      else none) := rfl

theorem parse_serialize : ∀ (fuel : Nat),
    (∀ (v : JSValue) (rest : List Char),
      (serializeValue v ++ rest).length ≤ fuel →
      parseJ fuel false (serializeValue v ++ rest) = some (Sum.inl (v, rest))) ∧
    (∀ (kv : String × JSValue) (fs : List (String × JSValue)) (rest : List Char),
      (serializeFields (kv :: fs) ++ (rbrace :: rest)).length ≤ fuel →
      parseJ fuel true (serializeFields (kv :: fs) ++ (rbrace :: rest)) =
        some (Sum.inr (kv :: fs, rest))) := by
  intro fuel
  induction fuel with
  | zero =>
    constructor
    · intro v rest hlen
      exfalso
      have hpos : 0 < (serializeValue v).length := by
        cases v <;> simp [serializeValue, quoteChars]
      simp only [List.length_append] at hlen
      omega
    · intro kv fs rest hlen
      exfalso
      simp only [List.length_append, List.length_cons] at hlen
      omega
  | succ n ih =>
    obtain ⟨ihv, ihf⟩ := ih
    constructor
    · intro v rest hlen
      match v with
      | JSValue.null =>
        show parseJ (n + 1) false ('n' :: ('u' :: ('l' :: ('l' :: rest)))) =
          some (Sum.inl (JSValue.null, rest))
        rfl
      | JSValue.str s =>
        have he : serializeValue (JSValue.str s) ++ rest =
            qmark :: (escChars s.data ++ (qmark :: rest)) := by
          simp [serializeValue, quoteChars]
        rw [he] at hlen ⊢
        rw [parseJ_val_cons, if_pos rfl]
        rw [parseStrCh_esc s.data n rest
          (by simp only [List.length_cons, List.length_append] at hlen ⊢; omega)]
      | JSValue.obj [] =>
        have he : serializeValue (JSValue.obj []) ++ rest =
            lbrace :: (rbrace :: rest) := by
          simp [serializeValue, serializeFields]
        rw [he] at hlen ⊢
        rfl
      | JSValue.obj (kv :: fs) =>
        obtain ⟨t, ht⟩ : ∃ t, serializeFields (kv :: fs) = qmark :: t := by
          obtain ⟨k, v⟩ := kv
          match fs with
          | [] =>
            exact ⟨escChars k.data ++ (qmark :: (':' :: serializeValue v)),
              by simp [serializeFields, quoteChars]⟩
          | kv2 :: fs2 =>
            exact ⟨escChars k.data ++ (qmark :: (':' :: (serializeValue v ++
                (',' :: serializeFields (kv2 :: fs2))))),
              by simp [serializeFields, quoteChars]⟩
        have he : serializeValue (JSValue.obj (kv :: fs)) ++ rest =
            lbrace :: (qmark :: (t ++ (rbrace :: rest))) := by
          simp [serializeValue, ht]
        rw [he] at hlen ⊢
        show (match parseJ n true (qmark :: (t ++ (rbrace :: rest))) with
          | some (Sum.inr (fs2, r)) => some (Sum.inl (JSValue.obj fs2, r))
          | _ => none) = some (Sum.inl (JSValue.obj (kv :: fs), rest))
        have harg : qmark :: (t ++ (rbrace :: rest)) =
            serializeFields (kv :: fs) ++ (rbrace :: rest) := by
          rw [ht]; simp
        rw [harg]
        rw [ihf kv fs rest
          (by rw [← harg]
              simp only [List.length_cons] at hlen ⊢
              omega)]
    · intro kv fs rest hlen
      obtain ⟨k, v⟩ := kv
      match fs with
      | [] =>
        have he : serializeFields [((k : String), v)] ++ (rbrace :: rest) =
            qmark :: (escChars k.data ++ (qmark ::
              (':' :: (serializeValue v ++ (rbrace :: rest))))) := by
          simp [serializeFields, quoteChars]
        rw [he] at hlen ⊢
        rw [parseJ_flds_cons, if_pos rfl]
        rw [parseStrCh_esc k.data n (':' :: (serializeValue v ++ (rbrace :: rest)))
          (by simp only [List.length_cons, List.length_append] at hlen ⊢; omega)]
        dsimp only
        rw [if_pos rfl]
        rw [ihv v (rbrace :: rest)
          (by simp only [List.length_cons, List.length_append] at hlen ⊢; omega)]
        rfl
      | kv2 :: fs2 =>
        have he : serializeFields (((k : String), v) :: (kv2 :: fs2)) ++ (rbrace :: rest) =
            qmark :: (escChars k.data ++ (qmark ::
              (':' :: (serializeValue v ++ (',' ::
                (serializeFields (kv2 :: fs2) ++ (rbrace :: rest))))))) := by
          simp [serializeFields, quoteChars]
        rw [he] at hlen ⊢
        rw [parseJ_flds_cons, if_pos rfl]
        rw [parseStrCh_esc k.data n (':' :: (serializeValue v ++ (',' ::
              (serializeFields (kv2 :: fs2) ++ (rbrace :: rest)))))
          (by simp only [List.length_cons, List.length_append] at hlen ⊢; omega)]
        dsimp only
        rw [if_pos rfl]
        rw [ihv v (',' :: (serializeFields (kv2 :: fs2) ++ (rbrace :: rest)))
          (by simp only [List.length_cons, List.length_append] at hlen ⊢; omega)]
        dsimp only
        rw [if_pos rfl]
        rw [ihf kv2 fs2 rest
          (by simp only [List.length_cons, List.length_append] at hlen ⊢; omega)]

theorem string_append_data (s t : String) : (s ++ t).data = s.data ++ t.data := rfl

theorem parseJsonObj_def (s : String) :
    parseJsonObj s =
      match s.data with
      | [] => none
      | c :: _ =>
        if c = lbrace then
          match parseJ (s.data.length + 1) false s.data with
          | some (Sum.inl (v, [])) => some v
          | _ => none
        else none := rfl

/-- The parser recovers exactly the object the serializer wrote. -/
theorem parseJsonObj_serialize (fs : List (String × JSValue)) :
    parseJsonObj (String.mk (serializeValue (JSValue.obj fs))) =
      some (JSValue.obj fs) := by
  have hpar : parseJ ((serializeValue (JSValue.obj fs)).length + 1) false
      (serializeValue (JSValue.obj fs)) = some (Sum.inl (JSValue.obj fs, [])) := by
    have h := (parse_serialize ((serializeValue (JSValue.obj fs)).length + 1)).1
      (JSValue.obj fs) [] (by simp)
    simpa using h
  have hd : serializeValue (JSValue.obj fs) =
      lbrace :: (serializeFields fs ++ [rbrace]) := by
    simp [serializeValue]
  rw [parseJsonObj_def]
  rw [show (String.mk (serializeValue (JSValue.obj fs))).data
      = serializeValue (JSValue.obj fs) from rfl]
  rw [hd] at hpar ⊢
  dsimp only
  rw [if_pos rfl, hpar]

/-- A serialized object never spells the null sentinel (it opens with a
brace). -/
theorem serialize_ne_sentinel (fs : List (String × JSValue)) :
    String.mk (serializeValue (JSValue.obj fs)) ≠ nullSentinel := by
  intro h
  have hdata := congrArg String.data h
  rw [show (String.mk (serializeValue (JSValue.obj fs))).data
      = serializeValue (JSValue.obj fs) from rfl] at hdata
  rw [show serializeValue (JSValue.obj fs)
      = lbrace :: (serializeFields fs ++ [rbrace]) from by simp [serializeValue]]
    at hdata
  rw [show nullSentinel.data
      = '#' :: ('#' :: ('n' :: ('u' :: ('l' :: ('l' :: ('#' :: ('#' :: [])))))))
      from rfl] at hdata
  injection hdata with h1 _
  exact absurd h1 (by decide)

/-- Decoding inverts encoding on any unambiguous value. -/
theorem decodeValue_encodeValue (v : JSValue) (h : goodValue v = true) :
    decodeValue (encodeValue v) = v := by
  match v with
  | JSValue.null => rfl
  | JSValue.str s =>
    simp only [goodValue, Bool.and_eq_true, Bool.not_eq_true', beq_eq_false_iff_ne,
      ne_eq, Option.isNone_iff_eq_none] at h
    show decodeValue s = JSValue.str s
    unfold decodeValue
    rw [if_neg h.1, h.2]
  | JSValue.obj fs =>
    show decodeValue (String.mk (serializeValue (JSValue.obj fs))) = JSValue.obj fs
    unfold decodeValue
    rw [if_neg (serialize_ne_sentinel fs), parseJsonObj_serialize fs]

/-- C10 amended: decoding inverts encoding — `decode(encode r) = r` — for
every record whose field values are nulls, JSON-serializable nested objects,
or strings that neither spell the null sentinel nor themselves parse as a
JSON object (the two string shapes the counterexample excludes). -/
theorem decode_encode_roundtrip (r : List (String × JSValue))
    (h : goodRecord r = true) : decodeRecord (encodeRecord r) = r := by
  induction r with
  | nil => rfl
  | cons kv r ih =>
    simp only [goodRecord, List.all_cons, Bool.and_eq_true] at h
    have hrec := ih h.2
    show (kv.1, decodeValue (encodeValue kv.2)) :: decodeRecord (encodeRecord r)
      = kv :: r
    rw [decodeValue_encodeValue kv.2 h.1, hrec]

theorem lookupHash_cons (k0 : String) (h0 : RedisHash) (store : RedisStore)
    (k : String) :
    lookupHash ((k0, h0) :: store) k =
      if k0 = k then some h0 else lookupHash store k := rfl

theorem lookupHash_head (k : String) (h0 : RedisHash) (store : RedisStore) :
    lookupHash ((k, h0) :: store) k = some h0 := by
  rw [lookupHash_cons, if_pos rfl]

/-- Every key the store enumerates has a hash map. -/
theorem lookupHash_isSome_of_mem (store : RedisStore) (k : String)
    (h : k ∈ store.map Prod.fst) : (lookupHash store k).isSome = true := by
  induction store with
  | nil => simp at h
  | cons e store ih =>
    obtain ⟨k0, h0⟩ := e
    rw [lookupHash_cons]
    by_cases hk : k0 = k
    · rw [if_pos hk]
      rfl
    · rw [if_neg hk]
      rw [List.map_cons] at h
      rcases List.mem_cons.mp h with h1 | h2
      · exact absurd h1.symm hk
      · exact ih h2

/-- A filterMap whose function is total on the list is a map. -/
theorem filterMap_eq_map_of_mem {α β : Type} (l : List α) (f : α → Option β)
    (g : α → β) (h : ∀ x ∈ l, f x = some (g x)) : l.filterMap f = l.map g := by
  induction l with
  | nil => rfl
  | cons a l ih =>
    rw [List.filterMap_cons, h a (List.mem_cons_self a l), List.map_cons,
      ih fun x hx => h x (List.mem_cons_of_mem a hx)]

/-- The heads of the records a multi-id GET assembles: the requested ids that
exist in the store, as id fields, in request order. -/
theorem filterMap_getRecord_heads (store : RedisStore) (pfxS : String)
    (typ : Option String) (is : List String) :
    (is.filterMap (getRecord store pfxS typ)).map List.head?
      = (is.filter fun i => (lookupHash store (buildKey pfxS typ i)).isSome).map
          fun i => some ((("id" : String), JSValue.str i)) := by
  induction is with
  | nil => rfl
  | cons i is ih =>
    rw [List.filterMap_cons, List.filter_cons]
    cases hl : lookupHash store (buildKey pfxS typ i) with
    | none =>
      rw [show getRecord store pfxS typ i = none from by
        unfold getRecord; rw [hl]]
      simp only [hl, Option.isSome_none, Bool.false_eq_true, if_false]
      exact ih
    | some h0 =>
      rw [show getRecord store pfxS typ i
          = some ((("id" : String), JSValue.str i) :: decodeRecord h0) from by
        unfold getRecord; rw [hl]]
      simp only [hl, Option.isSome_some, if_true]
      rw [List.map_cons, List.map_cons, ih]
      rfl

theorem send_expand (store : RedisStore) (at2 : String) (ptyp : Option String)
    (pid : Option ActionId) (ppat : Option String) (poi : Bool) (apfx : String)
    (st : ConnStatus) (cl : RedisClient) :
    send store ⟨at2, ⟨ptyp, pid, ppat, poi⟩, apfx⟩ (some ⟨st, some cl⟩) =
      (if at2 = "GET" then
        match pid with
        | some (ActionId.one i) => sendOne store apfx ptyp i
        | some (ActionId.many is) => sendMany store apfx ptyp is
        | none =>
          match ppat with
          | some p => sendPattern store apfx ptyp p poi
          | none => ⟨"error", none, some "No id or pattern"⟩
      else ⟨"error", none, some "Unsupported action type"⟩) := rfl

/-- C3: For every Connection with status ok and a non-null client (whatever
its quit behaviour, so in particular when `quit()` raises), `disconnect`
completes without raising — the result is `Except.ok`, never `Except.error` —
the shutdown failure is swallowed, the client reference ends up null, and the
status field is unchanged (still ok). -/
theorem disconnect_swallows_quit_error (client : RedisClient) :
    ∃ n, disconnect (some ⟨ConnStatus.ok, some client⟩) =
      Except.ok ⟨some ⟨ConnStatus.ok, none⟩, n⟩ :=
  ⟨if client.isOpen then 1 else 0,
    disconnect_ok_some ⟨ConnStatus.ok, some client⟩ client rfl rfl⟩

/-- C4: Disconnect is idempotent: it is a no-op (connection unchanged, no
error) on a null connection, on a connection whose status is not ok, and on a
connection whose client is already null; and calling it twice in a row on a
status-ok connection raises no error and leaves the client null after the
first call and after the second. -/
theorem disconnect_idempotent :
    disconnect none = Except.ok ⟨none, 0⟩ ∧
    (∀ (msg : String) (rc : Option RedisClient),
      disconnect (some ⟨ConnStatus.error msg, rc⟩) =
        Except.ok ⟨some ⟨ConnStatus.error msg, rc⟩, 0⟩) ∧
    (∀ st : ConnStatus, disconnect (some ⟨st, none⟩) =
        Except.ok ⟨some ⟨st, none⟩, 0⟩) ∧
    (∀ rc : Option RedisClient, ∃ n,
      disconnect (some ⟨ConnStatus.ok, rc⟩) =
        Except.ok ⟨some ⟨ConnStatus.ok, none⟩, n⟩ ∧
      disconnect (some ⟨ConnStatus.ok, none⟩) =
        Except.ok ⟨some ⟨ConnStatus.ok, none⟩, 0⟩) := by
  refine ⟨rfl, fun msg rc => rfl, ?_, ?_⟩
  · intro st
    cases st with
    | ok => rfl
    | error msg => rfl
  · intro rc
    cases rc with
    | none => exact ⟨0, rfl, rfl⟩
    | some client =>
      exact ⟨if client.isOpen then 1 else 0,
        disconnect_ok_some ⟨ConnStatus.ok, some client⟩ client rfl rfl, rfl⟩

/-- C5 counterexample: a status-ok connection holding a client that is not
open.  The claim says `disconnect` attempts `quit()` on every such
connection, yet here it makes zero quit attempts — the source only calls
`quit()` when `redisClient.isOpen` — while still clearing the client. -/
theorem disconnect_skips_quit_cex :
    (Connection.mk ConnStatus.ok (some ⟨false, false⟩)).redisClient.isSome = true ∧
    disconnect (some ⟨ConnStatus.ok, some ⟨false, false⟩⟩) =
      Except.ok ⟨some ⟨ConnStatus.ok, none⟩, 0⟩ :=
  ⟨rfl, rfl⟩

/-- C5 amended: for every Connection with status ok and a non-null client
that is open, `disconnect` attempts the graceful `quit()` call — exactly one
quit attempt — before clearing the client reference. -/
theorem disconnect_quits_open_client (qf : Bool) :
    disconnect (some ⟨ConnStatus.ok, some ⟨true, qf⟩⟩) =
      Except.ok ⟨some ⟨ConnStatus.ok, none⟩, 1⟩ :=
  disconnect_ok_some ⟨ConnStatus.ok, some ⟨true, qf⟩⟩ ⟨true, qf⟩ rfl rfl

/-- C6: dispatch never raises and fails softly without a client: a null
connection, or any connection whose client reference is absent (as after
idle-expiry), gets the `status = "error"` no-connection response; and every
`send` response either has status ok or has status error and carries an error
message (`send` is a total function, so no failure path escapes as an
exception). -/
theorem send_error_contract :
    (∀ (store : RedisStore) (action : RAction),
      send store action none = noConnectionResp) ∧
    (∀ (store : RedisStore) (action : RAction) (st : ConnStatus),
      send store action (some ⟨st, none⟩) = noConnectionResp) ∧
    (∀ (store : RedisStore) (action : RAction) (conn : Option Connection),
      (send store action conn).status = "ok" ∨
        ((send store action conn).status = "error" ∧
          (send store action conn).error.isSome = true)) := by
  refine ⟨fun _ _ => rfl, fun _ _ _ => rfl, ?_⟩
  intro store action conn
  match conn with
  | none => exact Or.inr ⟨rfl, rfl⟩
  | some ⟨st, none⟩ => exact Or.inr ⟨rfl, rfl⟩
  | some ⟨st, some cl⟩ =>
    obtain ⟨at2, ⟨ptyp, pid, ppat, poi⟩, apfx⟩ := action
    have hone : ∀ (pfx : String) (typ : Option String) (i : String),
        (sendOne store pfx typ i).status = "ok" ∨
          ((sendOne store pfx typ i).status = "error" ∧
            (sendOne store pfx typ i).error.isSome = true) := by
      intro pfx typ i
      unfold sendOne
      cases getRecord store pfx typ i with
      | some r => exact Or.inl rfl
      | none => exact Or.inr ⟨rfl, rfl⟩
    have hpat : ∀ (pfx : String) (typ : Option String) (p : String) (poi2 : Bool),
        (sendPattern store pfx typ p poi2).status = "ok" ∨
          ((sendPattern store pfx typ p poi2).status = "error" ∧
            (sendPattern store pfx typ p poi2).error.isSome = true) := by
      intro pfx typ p poi2
      cases poi2 with
      | true => exact Or.inl rfl
      | false => exact Or.inl rfl
    rw [send_expand]
    by_cases hA : at2 = "GET"
    · rw [if_pos hA]
      match pid with
      | some (ActionId.one i) => exact hone apfx ptyp i
      | some (ActionId.many is) => exact Or.inl rfl
      | none =>
        match ppat with
        | some p => exact hpat apfx ptyp p poi
        | none => exact Or.inr ⟨rfl, rfl⟩
    · rw [if_neg hA]
      exact Or.inr ⟨rfl, rfl⟩

/-- C10 counterexample: a record holding the literal sentinel string
"##null##" as a field value.  Encoding keeps the string as is, so decoding
maps it to null: decode(encode r) yields a null field where r had a string
field, and the two records differ. -/
theorem roundtrip_sentinel_cex :
    decodeRecord (encodeRecord [(("publishedAt" : String), JSValue.str "##null##")])
      = [(("publishedAt" : String), JSValue.null)] ∧
    JSValue.null ≠ JSValue.str "##null##" :=
  ⟨rfl, fun h => JSValue.noConfusion h⟩

/-- C10 witness: the amended round-trip applied at a concrete record with a
plain string field, a null field and a nested object field. -/
theorem decode_encode_roundtrip_witness :
    goodRecord [(("title" : String), JSValue.str "Article 1"),
      (("publishedAt" : String), JSValue.null),
      (("author" : String), JSValue.obj [(("id" : String), JSValue.str "johnf")])]
      = true ∧
    decodeRecord (encodeRecord [(("title" : String), JSValue.str "Article 1"),
      (("publishedAt" : String), JSValue.null),
      (("author" : String), JSValue.obj [(("id" : String), JSValue.str "johnf")])])
      = [(("title" : String), JSValue.str "Article 1"),
         (("publishedAt" : String), JSValue.null),
         (("author" : String), JSValue.obj [(("id" : String), JSValue.str "johnf")])] :=
  ⟨rfl, decode_encode_roundtrip _ rfl⟩

/-- C2: a GET with the single payload.id "art1", type article and prefix
store against the fixture store returns status ok with data a single record
(not an array) whose `id` field is the requested id, whose sentinel-valued
`publishedAt` field is decoded to null and whose JSON-object-valued `author`
field is parsed into a nested object; and in general the decode of a stored
field value equal to the sentinel is null. -/
theorem get_single_id_decodes_sentinel :
    send fixtureStore (getAction (some "article") (ActionId.one "art1"))
        (some connOk)
      = ⟨"ok", some (RespData.one record1), none⟩ ∧
    decodeValue "##null##" = JSValue.null :=
  ⟨rfl, rfl⟩

/-- C7: for every GET action whose payload.id is a list of ids, the response
data is an ordered sequence of records whose order matches the
caller-supplied id order — the head `id` fields, in order, are exactly the
requested ids that exist in the store, in request order; concretely,
requesting ["art1", "art3"] on the fixture yields two records with ids art1
then art3, never reversed. -/
theorem send_ids_preserve_order :
    (∀ (store : RedisStore) (pfxS : String) (typ : Option String)
        (is : List String) (client : RedisClient),
      ∃ recs,
        send store ⟨"GET", ⟨typ, some (ActionId.many is), none, false⟩, pfxS⟩
            (some ⟨ConnStatus.ok, some client⟩)
          = ⟨"ok", some (RespData.many recs), none⟩ ∧
        recs.map List.head?
          = (is.filter fun i =>
              (lookupHash store (buildKey pfxS typ i)).isSome).map
              fun i => some ((("id" : String), JSValue.str i))) ∧
    (∃ recs,
      send fixtureStore
          (getAction (some "article") (ActionId.many ["art1", "art3"]))
          (some connOk)
        = ⟨"ok", some (RespData.many recs), none⟩ ∧
      recs.length = 2 ∧
      recs.map List.head?
        = [some ((("id" : String), JSValue.str "art1")),
           some ((("id" : String), JSValue.str "art3"))]) := by
  constructor
  · intro store pfxS typ is client
    exact ⟨is.filterMap (getRecord store pfxS typ), rfl,
      filterMap_getRecord_heads store pfxS typ is⟩
  · exact ⟨(["art1", "art3"] : List String).filterMap
      (getRecord fixtureStore "store" (some "article")), rfl, rfl, rfl⟩

/-- C8: when a GET uses a pattern and no type, only the "{prefix}:" part is
stripped from each matched key: `extractIdFromKey p none` maps `p ++ ":" ++
rest` to `rest` for all p and rest, and the fixture pattern query for
"article" returns three records whose ids retain the type segment —
article:art1, article:art2, article:art3. -/
theorem pattern_ids_retain_type_segment :
    (∀ (p rest : String), extractIdFromKey p none (p ++ ":" ++ rest) = rest) ∧
    (∃ recs,
      send fixtureStore (patAction "article" false) (some connOk)
        = ⟨"ok", some (RespData.many recs), none⟩ ∧
      recs.length = 3 ∧
      recs.map List.head?
        = [some ((("id" : String), JSValue.str "article:art1")),
           some ((("id" : String), JSValue.str "article:art2")),
           some ((("id" : String), JSValue.str "article:art3"))]) := by
  constructor
  · intro p rest
    show String.mk (((p ++ ":") ++ rest).data.drop (p ++ ":").data.length) = rest
    rw [string_append_data (p ++ ":") rest, List.drop_left]
  · refine ⟨_, rfl, rfl, rfl⟩

/-- C9: for every pattern, a GET with onlyIds=true returns a sequence of
one-field {id} objects with the same element count and the same id order as
the full-record response for the same pattern with onlyIds unset: the id-only
records are exactly the full records truncated to their first (id) field, and
each is a single {id} object; concretely the fixture query for pattern
"article" with onlyIds returns exactly the three {id} records, in the order
of the full-record response. -/
theorem pattern_onlyIds_matches_full :
    (∀ (store : RedisStore) (pfxS p : String) (typ : Option String)
        (client : RedisClient),
      ∃ recsF recsI,
        send store ⟨"GET", ⟨typ, none, some p, false⟩, pfxS⟩
            (some ⟨ConnStatus.ok, some client⟩)
          = ⟨"ok", some (RespData.many recsF), none⟩ ∧
        send store ⟨"GET", ⟨typ, none, some p, true⟩, pfxS⟩
            (some ⟨ConnStatus.ok, some client⟩)
          = ⟨"ok", some (RespData.many recsI), none⟩ ∧
        recsI = recsF.map (fun r => r.take 1) ∧
        recsI = (patternKeys store pfxS p).map fun k =>
          [(("id" : String), JSValue.str (extractIdFromKey pfxS typ k))]) ∧
    (send fixtureStore (patAction "article" true) (some connOk)
      = ⟨"ok", some (RespData.many
          [[(("id" : String), JSValue.str "article:art1")],
           [(("id" : String), JSValue.str "article:art2")],
           [(("id" : String), JSValue.str "article:art3")]]), none⟩) := by
  constructor
  · intro store pfxS p typ client
    refine ⟨(patternKeys store pfxS p).filterMap (fun k =>
        match lookupHash store k with
        | some h => some
            ((("id" : String), JSValue.str (extractIdFromKey pfxS typ k))
              :: decodeRecord h)
        | none => none),
      (patternKeys store pfxS p).map (fun k =>
        [(("id" : String), JSValue.str (extractIdFromKey pfxS typ k))]),
      rfl, rfl, ?_, rfl⟩
    rw [filterMap_eq_map_of_mem (patternKeys store pfxS p) _
      (fun k => (("id" : String), JSValue.str (extractIdFromKey pfxS typ k))
        :: decodeRecord ((lookupHash store k).getD []))
      ?_]
    · rw [List.map_map]
      refine (List.map_congr_left fun k _ => ?_).symm
      simp
    · intro k hk
      have hmem : k ∈ store.map Prod.fst := List.mem_of_mem_filter hk
      have hsome := lookupHash_isSome_of_mem store k hmem
      cases hl : lookupHash store k with
      | none => rw [hl] at hsome; simp at hsome
      | some h0 => simp [hl]
  · rfl

/-- C1: for a Connection whose idle deadline is armed T from now, after T
elapses with no activity the idle-expiry task fires: it invokes the
Disconnector, clearing the client reference while leaving status ok; the next
connect() call with that existing Connection then establishes a new client
session — the connect call count rises from n to n + 1 and the timer is
re-armed — and the next dispatch, a GET for a key present in the store,
succeeds with status ok. -/
theorem idle_timeout_reconnect (T n t : Nat) (client : RedisClient)
    (pfxS i : String) (typ : Option String) (hsh : RedisHash)
    (restStore : RedisStore) :
    advanceClock T ⟨⟨ConnStatus.ok, some client⟩, n, t, some (t + T)⟩
      = ⟨⟨ConnStatus.ok, none⟩, n, t + T, none⟩ ∧
    connect true T ⟨⟨ConnStatus.ok, none⟩, n, t + T, none⟩
      = ⟨⟨ConnStatus.ok, some freshClient⟩, n + 1, t + T, some (t + T + T)⟩ ∧
    (send ((buildKey pfxS typ i, hsh) :: restStore)
        ⟨"GET", ⟨typ, some (ActionId.one i), none, false⟩, pfxS⟩
        (some ⟨ConnStatus.ok, some freshClient⟩)).status = "ok" := by
  refine ⟨?_, rfl, ?_⟩
  · show (if t + T ≤ t + T then
        (⟨expireNow ⟨ConnStatus.ok, some client⟩, n, t + T, none⟩ : MState)
      else ⟨⟨ConnStatus.ok, some client⟩, n, t + T, some (t + T)⟩)
      = ⟨⟨ConnStatus.ok, none⟩, n, t + T, none⟩
    rw [if_pos (Nat.le_refl (t + T))]
    have hexp : expireNow ⟨ConnStatus.ok, some client⟩ = ⟨ConnStatus.ok, none⟩ := by
      unfold expireNow
      rw [disconnect_ok_some ⟨ConnStatus.ok, some client⟩ client rfl rfl]
    rw [hexp]
  · show (sendOne ((buildKey pfxS typ i, hsh) :: restStore) pfxS typ i).status = "ok"
    unfold sendOne
    rw [show getRecord ((buildKey pfxS typ i, hsh) :: restStore) pfxS typ i
        = some ((("id" : String), JSValue.str i) :: decodeRecord hsh) from by
      unfold getRecord
      rw [lookupHash_head]]
